import Mathlib

/-!
Verification of the test-step execution engine and result-aggregation
component of the `ai_testing_agent` repository.

The definitions below are a shallow embedding of the TypeScript sources:

* `packages/core/src/types.ts` — the data model (`TestResult`, `StepResult`,
  `TestSummary`, …);
* `packages/automation/src/playwright-executor.ts` — `executeTestCase`,
  `executeStep`, `performAssertion`, `resolveValue`, `executeTestSuite`,
  `cleanup`;
* the browser-utility class — `retryOperation`;
* the `TestResultHandler` class — `processResult`, `generateSummary`,
  `generateJunitXml`, `escapeXml`.

Modelling conventions: JavaScript strings are `String` when they are opaque
tokens (ids, error messages) and `List Char` where character-level scanning
matters (placeholder substitution, XML escaping, assertions); `Date` values
are `Nat` millisecond timestamps supplied as explicit parameters; promises
and thrown exceptions become `Except`/explicit outcome types; `Record<string,
any>` test-data objects become association lists of stringified values
(own-property lookup; the prototype chain of JS objects is not modelled).
Wall-clock durations measured with `Date.now()` are inputs of the model.
-/

namespace AiTestingAgent

/-! ## Data model (packages/core/src/types.ts) -/

/-- `StepResult.status : 'PASSED' | 'FAILED' | 'SKIPPED'`. -/
inductive StepStatus where
  | PASSED
  | FAILED
  | SKIPPED
deriving DecidableEq, Repr

/-- `TestResult.status : 'PASSED' | 'FAILED' | 'FLAKY' | 'SKIPPED'`. -/
inductive CaseStatus where
  | PASSED
  | FAILED
  | FLAKY
  | SKIPPED
deriving DecidableEq, Repr

/-- `StepResult` from types.ts; `error?` is optional. -/
structure StepResult where
  step : Nat
  status : StepStatus
  duration : Nat
  error : Option String
deriving DecidableEq, Repr

/-- `TestResult.artifacts` object (all fields optional). -/
structure Artifacts where
  screenshot : Option String := none
  logs : Option (List String) := none
  video : Option String := none
deriving DecidableEq, Repr

/-- The dynamic `browserInfo` object attached by `TestResultHandler`
(`getBrowserInfo()`: name, version, headless). -/
structure BrowserInfo where
  name : String
  version : String
  headless : Bool
deriving DecidableEq, Repr

/-- `TestResult` from types.ts. `executedAt : Date` is a millisecond
timestamp. `browserInfo` is the dynamic field the result handler attaches
(`(enhancedResult as any).browserInfo`); it is `none` on results the
executor constructs. -/
structure TestResult where
  testCaseId : String
  status : CaseStatus
  duration : Nat
  error : Option String := none
  stepResults : Option (List StepResult) := none
  artifacts : Option Artifacts := none
  executedAt : Nat
  browserInfo : Option BrowserInfo := none
deriving DecidableEq, Repr

/-- `TestSummary.environment` from the automation `types.ts`. -/
structure EnvironmentInfo where
  browser : String
  version : String
  platform : String
deriving DecidableEq, Repr

/-- `TestSummary` from the automation `types.ts`; `startTime`/`endTime`
are millisecond timestamps. -/
structure TestSummary where
  total : Nat
  passed : Nat
  failed : Nat
  skipped : Nat
  flaky : Nat
  duration : Nat
  startTime : Nat
  endTime : Nat
  environment : EnvironmentInfo
deriving DecidableEq, Repr

/-! ## TestResultHandler (result aggregation) -/

/-- JavaScript `s || dflt` on an optional string: `undefined` and the empty
string are falsy, any other string is returned unchanged. -/
def jsOrElse (s : Option String) (dflt : String) : String :=
  match s with
  | some v => if v = "" then dflt else v
  | none => dflt

/-- Notifications `processResult` fires to registered listeners
(`events.onTestComplete`, `events.onTestFailure`). -/
inductive TestEvent where
  | complete (testCaseId : String) (result : TestResult)
  | failure (testCaseId : String) (message : String)
deriving DecidableEq, Repr

/-- Mutable state of a `TestResultHandler`: the accumulated `results`
array and the handler's `startTime`. -/
structure HandlerState where
  results : List TestResult
  startTime : Nat
deriving DecidableEq, Repr

/-- `TestResultHandler.processResult(result)`: pushes the (un-enhanced)
result onto `this.results`, fires `onTestComplete`, fires `onTestFailure`
if the result failed (message `result.error || 'Test failed'`), and returns
`{ ...result, executedAt: new Date() }` with `browserInfo` attached.
`now` is the `new Date()` taken inside the call; `binfo` is the value of
`getBrowserInfo()` (read from environment variables). -/
def processResult (st : HandlerState) (result : TestResult) (now : Nat)
    (binfo : BrowserInfo) : HandlerState × List TestEvent × TestResult :=
  let st' : HandlerState := { st with results := st.results ++ [result] }
  let evts : List TestEvent :=
    TestEvent.complete result.testCaseId result ::
      (if result.status = CaseStatus.FAILED then
        [TestEvent.failure result.testCaseId (jsOrElse result.error "Test failed")]
      else [])
  let enhancedResult : TestResult :=
    { result with executedAt := now, browserInfo := some binfo }
  (st', evts, enhancedResult)

/-- `TestResultHandler.generateSummary(results)`: counts by status, sums the
`duration` fields (`results.reduce((sum, r) => sum + r.duration, 0)`), and
stamps `startTime` (handler state) and `endTime` (`new Date()` at call
time). `env` is the environment block read from `process.env`. -/
def generateSummary (results : List TestResult) (startTime endTime : Nat)
    (env : EnvironmentInfo) : TestSummary :=
  { total := results.length
    passed := (results.filter (fun r => r.status = CaseStatus.PASSED)).length
    failed := (results.filter (fun r => r.status = CaseStatus.FAILED)).length
    skipped := (results.filter (fun r => r.status = CaseStatus.SKIPPED)).length
    flaky := (results.filter (fun r => r.status = CaseStatus.FLAKY)).length
    duration := results.foldl (fun sum r => sum + r.duration) 0
    startTime := startTime
    endTime := endTime
    environment := env }

/-! ## PlaywrightExecutor: executeStep / executeTestCase (playwright-executor.ts) -/

/-- Outcome of `performAction` for one step: success, a thrown `Error`
carrying a message, or a thrown non-`Error` value. -/
inductive ActionOutcome where
  | success
  | throwErr (msg : String)
  | throwNonErr
deriving DecidableEq, Repr

/-- One test step as the executor sees it: its declared `step` number, the
wall-clock duration its execution is observed to take (`Date.now()` before
and after), and the outcome of `performAction` on it. -/
structure ModelStep where
  step : Nat
  elapsed : Nat
  outcome : ActionOutcome
deriving DecidableEq, Repr

/-- `executeStep`: runs `performAction` in a try/catch; on a thrown `Error`
the message is kept, on a non-`Error` throw the text is
`'Step execution failed'`; the `error` field is attached only under
`if (error)` — JavaScript truthiness drops the empty string. -/
def executeStep (s : ModelStep) : StepResult :=
  match s.outcome with
  | ActionOutcome.success =>
    { step := s.step, status := StepStatus.PASSED, duration := s.elapsed, error := none }
  | ActionOutcome.throwErr msg =>
    { step := s.step, status := StepStatus.FAILED, duration := s.elapsed,
      error := if msg = "" then none else some msg }
  | ActionOutcome.throwNonErr =>
    { step := s.step, status := StepStatus.FAILED, duration := s.elapsed,
      error := some "Step execution failed" }

/-- The `for (const step of testCase.steps)` loop of `executeTestCase`:
pushes each step's `StepResult` and breaks on the first `FAILED` one,
recording the case status and the failing step's `error`. -/
def runSteps : List ModelStep → List StepResult × CaseStatus × Option String
  | [] => ([], CaseStatus.PASSED, none)
  | s :: rest =>
    let r := executeStep s
    if r.status = StepStatus.FAILED then
      ([r], CaseStatus.FAILED, r.error)
    else
      let t := runSteps rest
      (r :: t.1, t.2.1, t.2.2)

/-- `executeTestCase`: runs the step loop, assembles the `TestResult`
(total measured duration `totalElapsed`, captured `artifacts`,
`executedAt = new Date()` at `builtAt`), attaches `error` only under
`if (error)`, and hands the result to `resultHandler.processResult`
(which stamps `processedAt` and browser info). Returns the handler state,
the fired events and the processed result. -/
def executeTestCase (testCaseId : String) (steps : List ModelStep)
    (artifacts : Artifacts) (totalElapsed builtAt processedAt : Nat)
    (st : HandlerState) (binfo : BrowserInfo) :
    HandlerState × List TestEvent × TestResult :=
  let t := runSteps steps
  let result : TestResult :=
    { testCaseId := testCaseId
      status := t.2.1
      duration := totalElapsed
      stepResults := some t.1
      artifacts := some artifacts
      executedAt := builtAt
      error := match t.2.2 with
        | some e => if e = "" then none else some e
        | none => none }
  processResult st result processedAt binfo

/-! ## Retry policy helper (BrowserUtils.retryOperation) -/

/-- `retryConfig.backoff : 'linear' | 'exponential'`. -/
inductive Backoff where
  | linear
  | exponential
deriving DecidableEq, Repr

/-- `UtilsConfig.retryConfig`. -/
structure RetryConfig where
  maxRetries : Nat
  delay : Nat
  backoff : Backoff
deriving DecidableEq, Repr

/-- The per-attempt backoff delay computed after a failed attempt
(`retryConfig.backoff === 'exponential' ? delay * Math.pow(2, attempt)
: delay`). -/
def retryDelay (cfg : RetryConfig) (attempt : Nat) : Nat :=
  match cfg.backoff with
  | Backoff.exponential => cfg.delay * 2 ^ attempt
  | Backoff.linear => cfg.delay

/-- The body of `retryOperation`'s `for` loop, from attempt number
`attempt` with `remaining = maxRetries - attempt` further attempts allowed
(the source's `attempt === maxRetries` exit test is `remaining = 0` here).
The operation is a function of the attempt index; the result carries the
final value or re-raised error, the number of invocations of `op`, and the
list of waits performed (in order). -/
def retryOperationGo (op : Nat → Except String α) (cfg : RetryConfig) :
    Nat → Nat → Except String α × Nat × List Nat
  | attempt, remaining =>
    match op attempt with
    | Except.ok v => (Except.ok v, 1, [])
    | Except.error e =>
      match remaining with
      | 0 => (Except.error e, 1, [])
      | r + 1 =>
        let rest := retryOperationGo op cfg (attempt + 1) r
        (rest.1, rest.2.1 + 1, retryDelay cfg attempt :: rest.2.2)

/-- `BrowserUtils.retryOperation(operation, retryConfig)`. -/
def retryOperation (op : Nat → Except String α) (cfg : RetryConfig) :
    Except String α × Nat × List Nat :=
  retryOperationGo op cfg 0 cfg.maxRetries

/-! ## Claim C1 (step loop of executeTestCase) -/

/-- Helper: a step whose action succeeds yields a `PASSED` step result. -/
theorem executeStep_success_status (s : ModelStep)
    (h : s.outcome = ActionOutcome.success) :
    (executeStep s).status = StepStatus.PASSED := by
  simp [executeStep, h]

/-- Helper: when every step's action succeeds, the loop runs all steps and
reports `PASSED` with no error. -/
theorem runSteps_all_success (steps : List ModelStep)
    (h : ∀ s ∈ steps, s.outcome = ActionOutcome.success) :
    runSteps steps = (steps.map executeStep, CaseStatus.PASSED, none) := by
  induction steps with
  | nil => rfl
  | cons s rest ih =>
    have hs : s.outcome = ActionOutcome.success := h s (List.mem_cons_self _ _)
    have hrest := ih (fun x hx => h x (List.mem_cons_of_mem _ hx))
    simp [runSteps, executeStep, hs, hrest]

/-- Helper: when the steps are a success-only prefix, then a step whose
action throws an `Error`, the loop stops there: it records the prefix, the
failing step, status `FAILED` and the (truthiness-filtered) message,
independently of the steps after the failure. -/
theorem runSteps_first_fail (pre : List ModelStep) (f : ModelStep)
    (post : List ModelStep) (msg : String)
    (hpre : ∀ s ∈ pre, s.outcome = ActionOutcome.success)
    (hf : f.outcome = ActionOutcome.throwErr msg) :
    runSteps (pre ++ f :: post) =
      (pre.map executeStep ++ [executeStep f], CaseStatus.FAILED,
        if msg = "" then none else some msg) := by
  induction pre with
  | nil => simp [runSteps, executeStep, hf]
  | cons s rest ih =>
    have hs : s.outcome = ActionOutcome.success := hpre s (List.mem_cons_self _ _)
    have hrest := ih (fun x hx => hpre x (List.mem_cons_of_mem _ hx))
    simp [runSteps, executeStep, hs, hrest]


/-- Concrete browser-info value (the defaults of `getBrowserInfo()`). -/
def cexBrowserInfo : BrowserInfo :=
  { name := "chromium", version := "unknown", headless := true }

/-- C1 counterexample: a single step whose action raises an `Error` with
the empty message yields a `FAILED` step result whose `error` field is
absent (`none`), not one carrying the raised message `""`: the
`if (error)` truthiness check drops the empty string, refuting "the k-th
FAILED carrying that error's message" as stated. -/
theorem C1_counterexample :
    ((executeTestCase "tc-1" [⟨1, 5, ActionOutcome.throwErr ""⟩] {} 7 2 3
        ⟨[], 0⟩ cexBrowserInfo).2.2).stepResults
      = some [{ step := 1, status := StepStatus.FAILED, duration := 5, error := none }]
    ∧ some [({ step := 1, status := StepStatus.FAILED, duration := 5, error := none } : StepResult)]
      ≠ some [({ step := 1, status := StepStatus.FAILED, duration := 5, error := some "" } : StepResult)] := by
  exact ⟨rfl, by decide⟩

/-- C1 (amended): with an initialized page, if every one of the N steps
succeeds, the returned result's `stepResults` has exactly N entries, all
`PASSED`, and the case status is `PASSED`; if step k (1-indexed) is the
first whose action raises an error, `stepResults` has exactly k entries,
the first k-1 `PASSED` and the k-th `FAILED`, the k-th carrying the
error's message when that message is non-empty (an empty message is
dropped by the `if (error)` truthiness check), the case status is
`FAILED`, and no step after the k-th is ever attempted (the result does
not depend on the steps after the failing one). -/
theorem C1_executeTestCase_steps (id : String) (a : Artifacts)
    (totalElapsed builtAt processedAt : Nat) (st : HandlerState) (b : BrowserInfo) :
    (∀ steps : List ModelStep, (∀ s ∈ steps, s.outcome = ActionOutcome.success) →
      ((executeTestCase id steps a totalElapsed builtAt processedAt st b).2.2).stepResults
          = some (steps.map executeStep)
      ∧ (steps.map executeStep).length = steps.length
      ∧ (∀ r ∈ steps.map executeStep, r.status = StepStatus.PASSED)
      ∧ ((executeTestCase id steps a totalElapsed builtAt processedAt st b).2.2).status
          = CaseStatus.PASSED)
    ∧ (∀ (pre : List ModelStep) (f : ModelStep) (post : List ModelStep) (msg : String),
        (∀ s ∈ pre, s.outcome = ActionOutcome.success) →
        f.outcome = ActionOutcome.throwErr msg →
        ((executeTestCase id (pre ++ f :: post) a totalElapsed builtAt processedAt st b).2.2).stepResults
            = some (pre.map executeStep ++ [executeStep f])
        ∧ (pre.map executeStep ++ [executeStep f]).length = pre.length + 1
        ∧ (∀ r ∈ pre.map executeStep, r.status = StepStatus.PASSED)
        ∧ (executeStep f).status = StepStatus.FAILED
        ∧ (executeStep f).error = (if msg = "" then none else some msg)
        ∧ ((executeTestCase id (pre ++ f :: post) a totalElapsed builtAt processedAt st b).2.2).status
            = CaseStatus.FAILED
        ∧ (∀ post' : List ModelStep,
            executeTestCase id (pre ++ f :: post) a totalElapsed builtAt processedAt st b
              = executeTestCase id (pre ++ f :: post') a totalElapsed builtAt processedAt st b)) := by
  constructor
  · intro steps h
    have hrun := runSteps_all_success steps h
    refine ⟨?_, by simp, ?_, ?_⟩
    · simp [executeTestCase, processResult, hrun]
    · intro r hr
      obtain ⟨s, hs, rfl⟩ := List.mem_map.mp hr
      exact executeStep_success_status s (h s hs)
    · simp [executeTestCase, processResult, hrun]
  · intro pre f post msg hpre hf
    have hrun := runSteps_first_fail pre f post msg hpre hf
    refine ⟨?_, by simp, ?_, ?_, ?_, ?_, ?_⟩
    · simp [executeTestCase, processResult, hrun]
    · intro r hr
      obtain ⟨s, hs, rfl⟩ := List.mem_map.mp hr
      exact executeStep_success_status s (hpre s hs)
    · simp [executeStep, hf]
    · simp [executeStep, hf]
    · simp [executeTestCase, processResult, hrun]
    · intro post'
      have hrun' := runSteps_first_fail pre f post' msg hpre hf
      simp [executeTestCase, hrun, hrun']

/-- C1 witness: a concrete three-step case whose second step raises
`Error("boom")` — the amended theorem applies and its hypotheses hold. -/
theorem C1_witness :
    ((executeTestCase "tc-w" [⟨1, 2, ActionOutcome.success⟩,
        ⟨2, 3, ActionOutcome.throwErr "boom"⟩, ⟨3, 1, ActionOutcome.success⟩] {}
        9 4 5 ⟨[], 0⟩ cexBrowserInfo).2.2).stepResults
      = some [{ step := 1, status := StepStatus.PASSED, duration := 2, error := none },
              { step := 2, status := StepStatus.FAILED, duration := 3, error := some "boom" }]
    ∧ ((executeTestCase "tc-w" [⟨1, 2, ActionOutcome.success⟩,
        ⟨2, 3, ActionOutcome.throwErr "boom"⟩, ⟨3, 1, ActionOutcome.success⟩] {}
        9 4 5 ⟨[], 0⟩ cexBrowserInfo).2.2).status = CaseStatus.FAILED := by
  have h := (C1_executeTestCase_steps "tc-w" {} 9 4 5 ⟨[], 0⟩ cexBrowserInfo).2
    [⟨1, 2, ActionOutcome.success⟩] ⟨2, 3, ActionOutcome.throwErr "boom"⟩
    [⟨3, 1, ActionOutcome.success⟩] "boom"
    (by intro s hs; simp at hs; subst hs; rfl) rfl
  obtain ⟨h1, _, _, _, _, h6, _⟩ := h
  exact ⟨h1, h6⟩

/-! ## Claim C2 (retry policy) -/

/-- The waits performed by attempts `a, a+1, …, a+k-1` when each of them
fails (one wait after each failed non-final attempt). -/
def delaysFrom (cfg : RetryConfig) : Nat → Nat → List Nat
  | _, 0 => []
  | a, k + 1 => retryDelay cfg a :: delaysFrom cfg (a + 1) k

/-- Helper: `delaysFrom` is the delay formula mapped over the attempt
indices. -/
theorem delaysFrom_eq (cfg : RetryConfig) :
    ∀ (k a : Nat), delaysFrom cfg a k
      = (List.range k).map (fun j => retryDelay cfg (a + j)) := by
  intro k
  induction k with
  | zero => intro a; simp [delaysFrom]
  | succ k ih =>
    intro a
    rw [List.range_succ_eq_map]
    simp only [delaysFrom, ih (a + 1), List.map_cons, List.map_map]
    refine congrArg₂ List.cons (by simp) ?_
    refine List.map_congr_left ?_
    intro j _
    have : a + 1 + j = a + (j + 1) := by omega
    simp [Function.comp, this]

/-- Helper: if attempts `a, …, a+k-1` fail and attempt `a+k` succeeds
with `v` (and `k` does not exceed the remaining budget `r`), the loop
returns `ok v` after `k+1` invocations, having waited the backoff delay
after each failed attempt. -/
theorem retryGo_ok (op : Nat → Except String α) (cfg : RetryConfig) (v : α) :
    ∀ (k a r : Nat), k ≤ r →
      (∀ i, i < k → ∃ e, op (a + i) = Except.error e) →
      op (a + k) = Except.ok v →
      retryOperationGo op cfg a r = (Except.ok v, k + 1, delaysFrom cfg a k) := by
  intro k
  induction k with
  | zero =>
    intro a r _ _ hok
    have h : op a = Except.ok v := by simpa using hok
    simp [retryOperationGo, h, delaysFrom]
  | succ k ih =>
    intro a r hkr hfail hok
    obtain ⟨e, he⟩ := hfail 0 (Nat.succ_pos k)
    have he' : op a = Except.error e := by simpa using he
    obtain ⟨r', rfl⟩ : ∃ r', r = r' + 1 := ⟨r - 1, by omega⟩
    have hrec := ih (a + 1) r' (by omega)
      (fun i hi => by
        obtain ⟨d, hd⟩ := hfail (i + 1) (by omega)
        exact ⟨d, by rw [← hd]; congr 1; omega⟩)
      (by rw [← hok]; congr 1; omega)
    simp [retryOperationGo, he', hrec, delaysFrom]

/-- Helper: if every attempt with index `a, …, a+r` fails, the loop
re-raises the error of the last attempt after `r+1` invocations. -/
theorem retryGo_allfail (op : Nat → Except String α) (cfg : RetryConfig) (e : String) :
    ∀ (r a : Nat),
      (∀ i, i < r → ∃ d, op (a + i) = Except.error d) →
      op (a + r) = Except.error e →
      retryOperationGo op cfg a r = (Except.error e, r + 1, delaysFrom cfg a r) := by
  intro r
  induction r with
  | zero =>
    intro a _ he
    have h : op a = Except.error e := by simpa using he
    simp [retryOperationGo, h, delaysFrom]
  | succ r ih =>
    intro a hfail he
    obtain ⟨d, hd⟩ := hfail 0 (Nat.succ_pos r)
    have hd' : op a = Except.error d := by simpa using hd
    have hrec := ih (a + 1)
      (fun i hi => by
        obtain ⟨d', hd''⟩ := hfail (i + 1) (by omega)
        exact ⟨d', by rw [← hd'']; congr 1; omega⟩)
      (by rw [← he]; congr 1; omega)
    simp [retryOperationGo, hd', hrec, delaysFrom]

/-- Helper: the loop body starting with `remaining = r` invokes the
operation at most `r + 1` times. -/
theorem retryGo_count_le (op : Nat → Except String α) (cfg : RetryConfig) :
    ∀ (r a : Nat), (retryOperationGo op cfg a r).2.1 ≤ r + 1 := by
  intro r
  induction r with
  | zero =>
    intro a
    unfold retryOperationGo
    cases h : op a <;> simp [h]
  | succ r ih =>
    intro a
    unfold retryOperationGo
    cases h : op a with
    | ok v => simp [h]
    | error e =>
      simp only [h]
      exact Nat.add_le_add_right (ih (a + 1)) 1

/-- C2: `retryOperation` invokes the operation at most `maxRetries + 1`
times; if the first `k` attempts fail and attempt `k` (0-indexed,
`k ≤ maxRetries`) succeeds, it returns that value after `k + 1`
invocations, having waited after each failed attempt `i` the delay
`delay` (linear) or `delay * 2^i` (exponential); and if all
`maxRetries + 1` attempts fail it re-raises the error of the last
attempt with its message unchanged. -/
theorem C2_retryOperation (op : Nat → Except String α) (cfg : RetryConfig) :
    (retryOperation op cfg).2.1 ≤ cfg.maxRetries + 1
    ∧ (∀ i, retryDelay cfg i
        = match cfg.backoff with
          | Backoff.exponential => cfg.delay * 2 ^ i
          | Backoff.linear => cfg.delay)
    ∧ (∀ (k : Nat) (v : α), k ≤ cfg.maxRetries →
        (∀ i, i < k → ∃ e, op i = Except.error e) →
        op k = Except.ok v →
        retryOperation op cfg
          = (Except.ok v, k + 1, (List.range k).map (fun i => retryDelay cfg i)))
    ∧ (∀ e : String,
        (∀ i, i < cfg.maxRetries → ∃ d, op i = Except.error d) →
        op cfg.maxRetries = Except.error e →
        retryOperation op cfg
          = (Except.error e, cfg.maxRetries + 1,
             (List.range cfg.maxRetries).map (fun i => retryDelay cfg i))) := by
  refine ⟨retryGo_count_le op cfg cfg.maxRetries 0, fun i => rfl, ?_, ?_⟩
  · intro k v hk hfail hok
    have h := retryGo_ok op cfg v k 0 cfg.maxRetries hk
      (fun i hi => by simpa using hfail i hi) (by simpa using hok)
    rw [retryOperation, h, delaysFrom_eq]
    simp
  · intro e hfail he
    have h := retryGo_allfail op cfg e cfg.maxRetries 0
      (fun i hi => by simpa using hfail i hi) (by simpa using he)
    rw [retryOperation, h, delaysFrom_eq]
    simp

/-- C2 witness: an operation failing once then succeeding, under
`{maxRetries := 3, delay := 10, backoff := exponential}`: two invocations,
one wait of 10 ms, final value returned. -/
theorem C2_witness :
    retryOperation (fun i => if i = 0 then Except.error "a" else Except.ok (7 : Nat))
        ⟨3, 10, Backoff.exponential⟩
      = (Except.ok 7, 2, [10]) := by
  have h := (C2_retryOperation
      (fun i => if i = 0 then Except.error "a" else Except.ok (7 : Nat))
      ⟨3, 10, Backoff.exponential⟩).2.2.1 1 7 (by decide)
    (by
      intro i hi
      have hi0 : i = 0 := by omega
      subst hi0
      exact ⟨"a", rfl⟩)
    rfl
  simpa [retryDelay] using h

/-! ## Claim C5 (executeTestSuite error handling) -/

/-- How one call of `executeTestCase` inside the suite loop ends: it
returned a `TestResult`, or an exception escaped the per-case machinery
(a thrown `Error` with a message, or a thrown non-`Error` value). -/
inductive CaseOutcome where
  | completed (r : TestResult)
  | raisedErr (msg : String)
  | raisedNonErr
deriving DecidableEq, Repr

/-- The `TestResult` the suite catch-block records for a case whose
execution raised: `FAILED`, `duration: 0`, the exception's message, no
`stepResults`/`artifacts`, `executedAt: new Date()`. -/
def suiteFailedResult (id : String) (msg : String) (now : Nat) : TestResult :=
  { testCaseId := id, status := CaseStatus.FAILED, duration := 0,
    error := some msg, stepResults := none, artifacts := none,
    executedAt := now, browserInfo := none }

/-- `executeTestSuite`: for each `(id, outcome)` the loop pushes the
completed result (breaking afterwards if it failed and
`options.stopOnFailure` is set), or — in the catch branch — pushes the
synthetic failed result and continues with the next case. -/
def executeTestSuite (cases : List (String × CaseOutcome)) (stopOnFailure : Bool)
    (now : Nat) : List TestResult :=
  match cases with
  | [] => []
  | (id, outcome) :: rest =>
    match outcome with
    | CaseOutcome.completed r =>
      if r.status = CaseStatus.FAILED ∧ stopOnFailure then [r]
      else r :: executeTestSuite rest stopOnFailure now
    | CaseOutcome.raisedErr msg =>
      suiteFailedResult id msg now :: executeTestSuite rest stopOnFailure now
    | CaseOutcome.raisedNonErr =>
      suiteFailedResult id "Test execution failed" now :: executeTestSuite rest stopOnFailure now

/-- The number of cases the suite loop attempts: every case up to and
including the first completed `FAILED` case when `stopOnFailure` is set,
all of them otherwise (mirrors the loop's `break` condition; a case whose
execution raised never triggers the break). -/
def attemptedCount (cases : List (String × CaseOutcome)) (stopOnFailure : Bool) : Nat :=
  match cases with
  | [] => 0
  | (_, CaseOutcome.completed r) :: rest =>
    1 + (if r.status = CaseStatus.FAILED ∧ stopOnFailure then 0
         else attemptedCount rest stopOnFailure)
  | (_, _) :: rest => 1 + attemptedCount rest stopOnFailure

/-- C5: a case whose execution raises an exception escaping the per-case
machinery is still recorded as a `FAILED` result with duration 0 carrying
the exception's message, execution continues with the next case, and the
returned list has exactly one result per attempted case (in particular,
without `stopOnFailure` it has one result per case). -/
theorem C5_executeTestSuite_records_escaped_errors :
    (∀ (id msg : String) (rest : List (String × CaseOutcome)) (stop : Bool) (now : Nat),
      executeTestSuite ((id, CaseOutcome.raisedErr msg) :: rest) stop now
        = suiteFailedResult id msg now :: executeTestSuite rest stop now)
    ∧ (∀ (id msg : String) (now : Nat),
        (suiteFailedResult id msg now).status = CaseStatus.FAILED
        ∧ (suiteFailedResult id msg now).duration = 0
        ∧ (suiteFailedResult id msg now).error = some msg
        ∧ (suiteFailedResult id msg now).testCaseId = id)
    ∧ (∀ (cases : List (String × CaseOutcome)) (stop : Bool) (now : Nat),
        (executeTestSuite cases stop now).length = attemptedCount cases stop)
    ∧ (∀ (cases : List (String × CaseOutcome)) (now : Nat),
        (executeTestSuite cases false now).length = cases.length) := by
  have hlen : ∀ (cases : List (String × CaseOutcome)) (stop : Bool) (now : Nat),
      (executeTestSuite cases stop now).length = attemptedCount cases stop := by
    intro cases stop now
    induction cases with
    | nil => rfl
    | cons c rest ih =>
      obtain ⟨id, outcome⟩ := c
      cases outcome with
      | completed r =>
        by_cases h : r.status = CaseStatus.FAILED ∧ stop
        · simp [executeTestSuite, attemptedCount, h]
        · simp [executeTestSuite, attemptedCount, h, ih, Nat.add_comm]
      | raisedErr msg => simp [executeTestSuite, attemptedCount, ih, Nat.add_comm]
      | raisedNonErr => simp [executeTestSuite, attemptedCount, ih, Nat.add_comm]
  have hnostop : ∀ (cases : List (String × CaseOutcome)) (now : Nat),
      (executeTestSuite cases false now).length = cases.length := by
    intro cases now
    induction cases with
    | nil => rfl
    | cons c rest ih =>
      obtain ⟨id, outcome⟩ := c
      cases outcome with
      | completed r => simp [executeTestSuite, ih]
      | raisedErr msg => simp [executeTestSuite, ih]
      | raisedNonErr => simp [executeTestSuite, ih]
  exact ⟨fun id msg rest stop now => rfl,
    fun id msg now => ⟨rfl, rfl, rfl, rfl⟩, hlen, hnostop⟩

/-! ## Claim C7 (cleanup) -/

/-- The browser handles held by the executor. `some b` is an open handle
whose `close()` call throws iff `b`; `none` is an already-released (null)
handle. -/
structure ExecutorHandles where
  page : Option Bool
  context : Option Bool
  browser : Option Bool
deriving DecidableEq, Repr

/-- The close calls `cleanup` can issue. -/
inductive CloseAction where
  | closePage
  | closeContext
  | closeBrowser
deriving DecidableEq, Repr

/-- Third statement of the `try` block: close and null the browser. -/
def closeSeqBrowser (s : ExecutorHandles) (acts : List CloseAction) :
    Except (ExecutorHandles × List CloseAction) (ExecutorHandles × List CloseAction) :=
  match s.browser with
  | some bf =>
    if bf then Except.error (s, acts ++ [CloseAction.closeBrowser])
    else Except.ok ({ s with browser := none }, acts ++ [CloseAction.closeBrowser])
  | none => Except.ok (s, acts)

/-- Second statement of the `try` block: close and null the context, then
fall through to the browser. -/
def closeSeqContext (s : ExecutorHandles) (acts : List CloseAction) :
    Except (ExecutorHandles × List CloseAction) (ExecutorHandles × List CloseAction) :=
  match s.context with
  | some cf =>
    if cf then Except.error (s, acts ++ [CloseAction.closeContext])
    else closeSeqBrowser { s with context := none } (acts ++ [CloseAction.closeContext])
  | none => closeSeqBrowser s acts

/-- The `try` block of `cleanup`: close page, context, browser in that
order, nulling each field right after its successful close. An `error`
result is a thrown close call, carrying the handles and the close calls
issued up to (and including) the throwing one. -/
def closeSeq (s : ExecutorHandles) :
    Except (ExecutorHandles × List CloseAction) (ExecutorHandles × List CloseAction) :=
  match s.page with
  | some pf =>
    if pf then Except.error (s, [CloseAction.closePage])
    else closeSeqContext { s with page := none } [CloseAction.closePage]
  | none => closeSeqContext s []

/-- `cleanup()`: runs the close sequence inside `try { … } catch (err)
{ console.error(…) }` — a thrown close error is logged and swallowed, and
the method returns normally either way. -/
def cleanup (s : ExecutorHandles) : ExecutorHandles × List CloseAction :=
  match closeSeq s with
  | Except.ok r => r
  | Except.error r => r

/-- C7 counterexample: with all three handles open and only `page.close()`
throwing, `cleanup` swallows the error but — because a single `try/catch`
wraps all three closes — never attempts `context.close()` or
`browser.close()` and leaves all three handles set, refuting "cleanup
still completes releasing all remaining handles". -/
theorem C7_counterexample :
    cleanup ⟨some true, some false, some false⟩
      = (⟨some true, some false, some false⟩, [CloseAction.closePage])
    ∧ (cleanup ⟨some true, some false, some false⟩).1.browser ≠ none
    ∧ (cleanup ⟨some true, some false, some false⟩).1.context ≠ none := by
  exact ⟨rfl, by decide, by decide⟩

/-- C7 (amended): `cleanup` releases page, context, browser in that
nesting order and never propagates a close-time error to the caller (a
thrown close is caught and the method returns normally); when no close
call throws it nulls every handle, so a second call is a no-op issuing no
close calls; but a close-time error aborts the remaining closes — the
failing handle and those after it stay un-released. -/
theorem C7_cleanup (s : ExecutorHandles) :
    (∀ r, closeSeq s = Except.error r → cleanup s = r)
    ∧ (s.page ≠ some true → s.context ≠ some true → s.browser ≠ some true →
        cleanup s
          = (⟨none, none, none⟩,
              (if s.page = none then [] else [CloseAction.closePage])
              ++ (if s.context = none then [] else [CloseAction.closeContext])
              ++ (if s.browser = none then [] else [CloseAction.closeBrowser])))
    ∧ cleanup ⟨none, none, none⟩ = (⟨none, none, none⟩, [])
    ∧ (s.page = some true → cleanup s = (s, [CloseAction.closePage])) := by
  refine ⟨?_, ?_, rfl, ?_⟩
  · intro r hr
    simp [cleanup, hr]
  · intro hp hc hb
    obtain ⟨p, c, b⟩ := s
    cases p with
    | none =>
      cases c with
      | none =>
        cases b with
        | none => rfl
        | some bf =>
          cases bf with
          | false => rfl
          | true => exact absurd rfl hb
      | some cf =>
        cases cf with
        | true => exact absurd rfl hc
        | false =>
          cases b with
          | none => rfl
          | some bf =>
            cases bf with
            | false => rfl
            | true => exact absurd rfl hb
    | some pf =>
      cases pf with
      | true => exact absurd rfl hp
      | false =>
        cases c with
        | none =>
          cases b with
          | none => rfl
          | some bf =>
            cases bf with
            | false => rfl
            | true => exact absurd rfl hb
        | some cf =>
          cases cf with
          | true => exact absurd rfl hc
          | false =>
            cases b with
            | none => rfl
            | some bf =>
              cases bf with
              | false => rfl
              | true => exact absurd rfl hb
  · intro hp
    obtain ⟨p, c, b⟩ := s
    cases p with
    | none => exact absurd hp (by simp)
    | some pf =>
      have : pf = true := by simpa using hp
      subst this
      rfl

/-- C7 witness: a fully initialized executor whose closes all succeed —
the amended theorem applies; cleanup nulls everything and issues the three
closes in order. -/
theorem C7_witness :
    cleanup ⟨some false, some false, some false⟩
      = (⟨none, none, none⟩,
          [CloseAction.closePage, CloseAction.closeContext, CloseAction.closeBrowser]) := by
  have h := (C7_cleanup ⟨some false, some false, some false⟩).2.1
    (by decide) (by decide) (by decide)
  simpa using h

/-! ## resolveValue: `value.replace(/\{\{(\w+)\}\}/g, …)` -/

/-- The left brace character. -/
def lb : Char := Char.ofNat 123

/-- The right brace character. -/
def rb : Char := Char.ofNat 125

/-- `\w` of a JavaScript regex without the `u`/`v` flags:
`[A-Za-z0-9_]`. -/
def isWordChar (c : Char) : Bool :=
  (Char.ofNat 97 ≤ c && c ≤ Char.ofNat 122)
  || (Char.ofNat 65 ≤ c && c ≤ Char.ofNat 90)
  || (Char.ofNat 48 ≤ c && c ≤ Char.ofNat 57)
  || c = Char.ofNat 95

/-- Longest prefix of word characters (the greedy `\w+` run) and the rest
of the input. -/
def takeWordRun : List Char → List Char × List Char
  | [] => ([], [])
  | c :: cs =>
    if isWordChar c then
      let p := takeWordRun cs
      (c :: p.1, p.2)
    else ([], c :: cs)

/-- Whether `/\{\{(\w+)\}\}/` matches at the start of the input; on a match,
the captured key and the input after the match. Since `\w` cannot match a
brace, the regex matches here exactly when the greedy word run after two
left braces is non-empty and immediately followed by two right braces (no
shorter run can match under backtracking, as the run would then be
followed by a word character, not a brace). -/
def matchPlaceholder : List Char → Option (List Char × List Char)
  | c1 :: c2 :: cs =>
    if c1 = lb ∧ c2 = lb then
      match takeWordRun cs with
      | (run, rest) =>
        match run, rest with
        | _ :: _, r1 :: r2 :: rest2 =>
          if r1 = rb ∧ r2 = rb then some (run, rest2) else none
        | _, _ => none
    else none
  | _ => none

/-- Lookup of a (stringified) value in the merged data object — JavaScript
`data[key] !== undefined` on own properties; first binding wins. -/
def lookupData (data : List (List Char × List Char)) (key : List Char) :
    Option (List Char) :=
  match data with
  | [] => none
  | kv :: rest => if kv.1 = key then some kv.2 else lookupData rest key

/-- One pass of `String.prototype.replace` with the global regex: at each
position, if the pattern matches, emit the replacement (`String(data[key])`
if the key is defined, the matched text verbatim otherwise) and continue
after the match; otherwise emit the character and advance by one. The fuel
argument (always at least the input length) makes the recursion
structural; each step consumes at least one input character. -/
def substAux (data : List (List Char × List Char)) : Nat → List Char → List Char
  | _, [] => []
  | 0, l => l
  | fuel + 1, c :: cs =>
    match matchPlaceholder (c :: cs) with
    | some kr =>
      (match lookupData data kr.1 with
       | some v => v
       | none => lb :: lb :: (kr.1 ++ [rb, rb])) ++ substAux data fuel kr.2
    | none => c :: substAux data fuel cs

/-- `PlaywrightExecutor.resolveValue(value, data)`. -/
def resolveValue (value : List Char) (data : List (List Char × List Char)) :
    List Char :=
  substAux data value.length value

/-- The merged data of `performAction`: `{ ...testData, ...data }` — the
step-level `data` wins on key collision, which under first-binding-wins
lookup means it comes first. -/
def mergeData (testData stepData : List (List Char × List Char)) :
    List (List Char × List Char) :=
  stepData ++ testData

/-- Helper: `takeWordRun` splits its input. -/
theorem takeWordRun_append_eq (l : List Char) :
    (takeWordRun l).1 ++ (takeWordRun l).2 = l := by
  induction l with
  | nil => rfl
  | cons c cs ih =>
    by_cases h : isWordChar c
    · simp [takeWordRun, h, ih]
    · simp [takeWordRun, h]

/-- Helper: a word run followed by input whose head is not a word
character splits exactly at the boundary. -/
theorem takeWordRun_word_append (key rest : List Char)
    (hk : ∀ c ∈ key, isWordChar c = true)
    (hr : ∀ d t, rest = d :: t → isWordChar d = false) :
    takeWordRun (key ++ rest) = (key, rest) := by
  induction key with
  | nil =>
    cases rest with
    | nil => rfl
    | cons d t => simp [takeWordRun, hr d t rfl]
  | cons c key' ih =>
    have hc : isWordChar c = true := hk c (List.mem_cons_self _ _)
    have hrest := ih (fun x hx => hk x (List.mem_cons_of_mem _ hx))
    simp [takeWordRun, hc, hrest]

/-- Helper: the character at which the word run stops is not a word
character. -/
theorem takeWordRun_stop (l : List Char) :
    ∀ d t, (takeWordRun l).2 = d :: t → isWordChar d = false := by
  induction l with
  | nil => intro d t h; simp [takeWordRun] at h
  | cons c cs ih =>
    intro d t h
    cases hc : isWordChar c with
    | true => exact ih d t (by simpa [takeWordRun, hc] using h)
    | false =>
      have h' : c :: cs = d :: t := by simpa [takeWordRun, hc] using h
      injection h' with h1 _
      rw [← h1]
      exact hc

/-- Helper: if the input holds a non-word character, the word run stops
inside it. -/
theorem takeWordRun_rest_ne_nil (l : List Char)
    (h : ∃ c ∈ l, isWordChar c = false) : (takeWordRun l).2 ≠ [] := by
  induction l with
  | nil => simp at h
  | cons c cs ih =>
    cases hc : isWordChar c with
    | false => simp [takeWordRun, hc]
    | true =>
      obtain ⟨d, hd, hdw⟩ := h
      rcases List.mem_cons.mp hd with rfl | hd'
      · rw [hc] at hdw; exact absurd hdw (by simp)
      · simpa [takeWordRun, hc] using ih ⟨d, hd', hdw⟩

/-- Helper: when the word run stops inside `k`, appending further input
does not change the split point. -/
theorem takeWordRun_append_rest (k : List Char) (s : List Char)
    (h : (takeWordRun k).2 ≠ []) :
    takeWordRun (k ++ s) = ((takeWordRun k).1, (takeWordRun k).2 ++ s) := by
  induction k with
  | nil => simp [takeWordRun] at h
  | cons c cs ih =>
    cases hc : isWordChar c with
    | false => simp [takeWordRun, hc]
    | true =>
      have h' : (takeWordRun cs).2 ≠ [] := by simpa [takeWordRun, hc] using h
      simp [takeWordRun, hc, ih h']

/-- Helper: the regex matches at `\x7b\x7bkey\x7d\x7dsuf` with a non-empty
all-word `key`, capturing exactly `key`. -/
theorem matchPlaceholder_mk (key suf : List Char) (hne : key ≠ [])
    (hw : ∀ c ∈ key, isWordChar c = true) :
    matchPlaceholder (lb :: lb :: (key ++ rb :: rb :: suf)) = some (key, suf) := by
  have htw : takeWordRun (key ++ rb :: rb :: suf) = (key, rb :: rb :: suf) :=
    takeWordRun_word_append key (rb :: rb :: suf) hw
      (by intro d t hdt; injection hdt with h1 _; rw [← h1]; decide)
  obtain ⟨k0, k', rfl⟩ := List.exists_cons_of_ne_nil hne
  have htw' : takeWordRun (k0 :: (k' ++ rb :: rb :: suf)) = (k0 :: k', rb :: rb :: suf) := by
    simpa using htw
  simp [matchPlaceholder, htw']

/-- Helper: no match starts at a character other than a left brace. -/
theorem matchPlaceholder_none_of_head (c : Char) (cs : List Char) (h : c ≠ lb) :
    matchPlaceholder (c :: cs) = none := by
  cases cs with
  | nil => rfl
  | cons c2 cs2 => simp [matchPlaceholder, h]

/-- Helper: no match when the second character is not a left brace. -/
theorem matchPlaceholder_none_of_snd (c1 c2 : Char) (cs : List Char) (h : c2 ≠ lb) :
    matchPlaceholder (c1 :: c2 :: cs) = none := by
  simp [matchPlaceholder, h]

/-- Helper: after two left braces, the regex fails when the greedy word
run is empty or is not followed immediately by a right brace. -/
theorem matchPlaceholder_none_braces (cs2 : List Char)
    (h : (takeWordRun cs2).1 = [] ∨ (takeWordRun cs2).2.head? ≠ some rb) :
    matchPlaceholder (lb :: lb :: cs2) = none := by
  rcases h4 : takeWordRun cs2 with ⟨run, rest⟩
  rw [h4] at h
  cases run with
  | nil => simp [matchPlaceholder, h4]
  | cons a as =>
    rcases h with h | h
    · simp at h
    · cases rest with
      | nil => simp [matchPlaceholder, h4]
      | cons r1 rt =>
        have hr1 : r1 ≠ rb := by simpa using h
        cases rt with
        | nil => simp [matchPlaceholder, h4]
        | cons r2 rest2 => simp [matchPlaceholder, h4, hr1]

/-- Helper: structure of a successful match: the input is exactly the
two-brace-delimited non-empty key followed by the rest. -/
theorem matchPlaceholder_some_parts (l key rest : List Char)
    (h : matchPlaceholder l = some (key, rest)) :
    l = lb :: lb :: (key ++ rb :: rb :: rest) ∧ key ≠ [] := by
  match l with
  | [] => simp [matchPlaceholder] at h
  | [c] => simp [matchPlaceholder] at h
  | c1 :: c2 :: cs =>
    by_cases hc : c1 = lb ∧ c2 = lb
    case neg => simp [matchPlaceholder, hc] at h
    case pos =>
      obtain ⟨rfl, rfl⟩ := hc
      rcases h4 : takeWordRun cs with ⟨run, rest0⟩
      have hsplit := takeWordRun_append_eq cs
      rw [h4] at hsplit
      simp only [] at hsplit
      match run, rest0 with
      | [], r0 => simp [matchPlaceholder, h4] at h
      | a :: as, [] => simp [matchPlaceholder, h4] at h
      | a :: as, [r1] => simp [matchPlaceholder, h4] at h
      | a :: as, r1 :: r2 :: rest2 =>
        by_cases hr : r1 = rb ∧ r2 = rb
        case neg => simp [matchPlaceholder, h4, hr] at h
        case pos =>
          obtain ⟨rfl, rfl⟩ := hr
          simp [matchPlaceholder, h4] at h
          obtain ⟨h1, h2⟩ := h
          subst h1
          subst h2
          simp [← hsplit]

/-- Helper: a successful match consumes the two braces, the non-empty key
and the two closing braces, so the rest is shorter by at least five. -/
theorem matchPlaceholder_rest_length (l key rest : List Char)
    (h : matchPlaceholder l = some (key, rest)) :
    rest.length + 5 ≤ l.length := by
  obtain ⟨hl, hne⟩ := matchPlaceholder_some_parts l key rest h
  have hk : 1 ≤ key.length := by
    cases key with
    | nil => exact absurd rfl hne
    | cons a as => simp
  subst hl
  simp [List.length_append]
  omega

/-- Helper: any fuel at least the input length yields the same scan
result (each scan step consumes at least one character). -/
theorem substAux_fuel (data : List (List Char × List Char)) :
    ∀ (f f' : Nat) (l : List Char), l.length ≤ f → l.length ≤ f' →
      substAux data f l = substAux data f' l := by
  intro f
  induction f with
  | zero =>
    intro f' l hf _
    have : l = [] := by
      cases l with
      | nil => rfl
      | cons c cs => simp at hf
    subst this
    cases f' <;> rfl
  | succ g ih =>
    intro f' l hf hf'
    cases l with
    | nil => cases f' <;> rfl
    | cons c cs =>
      cases f' with
      | zero => simp at hf'
      | succ g' =>
        cases hm : matchPlaceholder (c :: cs) with
        | some kr =>
          have hlen := matchPlaceholder_rest_length (c :: cs) kr.1 kr.2 (by simpa using hm)
          simp only [List.length_cons] at hf hf' hlen
          simp only [substAux, hm]
          exact congrArg _ (ih g' kr.2 (by omega) (by omega))
        | none =>
          simp only [List.length_cons] at hf hf'
          simp only [substAux, hm]
          exact congrArg _ (ih g' cs (by omega) (by omega))

/-- Helper: scan step at a position where the regex does not match. -/
theorem resolveValue_nomatch (c : Char) (cs : List Char)
    (data : List (List Char × List Char))
    (h : matchPlaceholder (c :: cs) = none) :
    resolveValue (c :: cs) data = c :: resolveValue cs data := by
  unfold resolveValue
  simp only [List.length_cons, substAux, h]

/-- Helper: scan step at a position where the regex matches: substitute
(or keep the match verbatim when the key is undefined) and continue after
the match. -/
theorem resolveValue_match (l key rest : List Char)
    (data : List (List Char × List Char))
    (h : matchPlaceholder l = some (key, rest)) :
    resolveValue l data
      = (match lookupData data key with
         | some v => v
         | none => lb :: lb :: (key ++ [rb, rb])) ++ resolveValue rest data := by
  obtain ⟨hl, _⟩ := matchPlaceholder_some_parts l key rest h
  have hlen := matchPlaceholder_rest_length l key rest h
  match l, hl with
  | _, rfl =>
    unfold resolveValue
    simp only [List.length_cons, substAux, h]
    refine congrArg _ (substAux_fuel data _ _ rest ?_ (Nat.le_refl _))
    simp only [List.length_cons, List.length_append] at hlen ⊢
    omega

/-- Helper: a left-brace-free segment is copied to the output unchanged
(no position inside it can start a match) and the scan continues on the
rest of the input. -/
theorem resolveValue_no_lb_append (data : List (List Char × List Char)) :
    ∀ l suf : List Char, (∀ c ∈ l, c ≠ lb) →
      resolveValue (l ++ suf) data = l ++ resolveValue suf data := by
  intro l suf h
  induction l with
  | nil => simp
  | cons c cs ih =>
    rw [List.cons_append,
      resolveValue_nomatch c _ data
        (matchPlaceholder_none_of_head c _ (h c (List.mem_cons_self _ _))),
      ih (fun x hx => h x (List.mem_cons_of_mem _ hx))]
    rfl

/-- Helper: a string without a left brace is scanned to itself. -/
theorem resolveValue_no_lb (data : List (List Char × List Char)) :
    ∀ l : List Char, (∀ c ∈ l, c ≠ lb) → resolveValue l data = l := by
  intro l h
  have h2 := resolveValue_no_lb_append data l [] h
  have h0 : resolveValue [] data = [] := rfl
  simpa [h0] using h2

/-- Helper (per-occurrence behaviour of `resolveValue`): in
`pre · \x7b\x7bkey\x7d\x7d · suf` with a brace-free `pre` and a
non-empty all-word `key`, the occurrence is substituted by the
stringified data value when the key is defined and kept verbatim
otherwise, and scanning continues on `suf`. -/
theorem resolveValue_occurrence (pre key suf : List Char)
    (data : List (List Char × List Char))
    (hpre : ∀ c ∈ pre, c ≠ lb) (hne : key ≠ [])
    (hw : ∀ c ∈ key, isWordChar c = true) :
    resolveValue (pre ++ lb :: lb :: (key ++ rb :: rb :: suf)) data
      = pre ++ ((match lookupData data key with
                 | some v => v
                 | none => lb :: lb :: (key ++ [rb, rb])) ++ resolveValue suf data) := by
  induction pre with
  | nil =>
    simpa using resolveValue_match _ key suf data (matchPlaceholder_mk key suf hne hw)
  | cons c pre' ih =>
    have hc : c ≠ lb := hpre c (List.mem_cons_self _ _)
    rw [List.cons_append,
      resolveValue_nomatch c _ data (matchPlaceholder_none_of_head c _ hc),
      ih (fun x hx => hpre x (List.mem_cons_of_mem _ hx))]
    rfl

/-- Helper: lookup in the merged object — the step-level bindings shadow
the case-level ones. -/
theorem lookupData_merge :
    ∀ (stepData testData : List (List Char × List Char)) (key : List Char),
      lookupData (mergeData testData stepData) key
        = match lookupData stepData key with
          | some v => some v
          | none => lookupData testData key := by
  intro stepData
  induction stepData with
  | nil => intro testData key; rfl
  | cons kv rest ih =>
    intro testData key
    by_cases h : kv.1 = key
    · simp [mergeData, lookupData, h]
    · simpa [mergeData, lookupData, h] using ih testData key

/-- C4: placeholder substitution over the merged data (step-level `data`
over case-level `testData`, step level winning on collision): every
`\x7b\x7bkey\x7d\x7d` occurrence with a defined key is replaced by the
stringified value, every occurrence with an undefined key is left
verbatim (never raising); in particular `testData = (username ↦ alice)`
resolves `\x7b\x7busername\x7d\x7d` to `alice`,
`\x7b\x7bmissing\x7d\x7d` to itself, and a key bound at both levels
resolves to the step-level value. -/
theorem C4_resolveValue_substitution :
    (∀ (pre key suf : List Char) (testData stepData : List (List Char × List Char)),
      (∀ c ∈ pre, c ≠ lb) → key ≠ [] → (∀ c ∈ key, isWordChar c = true) →
      resolveValue (pre ++ lb :: lb :: (key ++ rb :: rb :: suf)) (mergeData testData stepData)
        = pre ++ ((match lookupData (mergeData testData stepData) key with
                   | some v => v
                   | none => lb :: lb :: (key ++ [rb, rb]))
            ++ resolveValue suf (mergeData testData stepData)))
    ∧ (∀ (testData stepData : List (List Char × List Char)) (key : List Char),
        lookupData (mergeData testData stepData) key
          = match lookupData stepData key with
            | some v => some v
            | none => lookupData testData key)
    ∧ resolveValue ("\x7b\x7busername\x7d\x7d".toList)
        (mergeData [("username".toList, "alice".toList)] []) = "alice".toList
    ∧ resolveValue ("\x7b\x7bmissing\x7d\x7d".toList)
        (mergeData [("username".toList, "alice".toList)] [])
      = "\x7b\x7bmissing\x7d\x7d".toList
    ∧ resolveValue ("\x7b\x7bk\x7d\x7d".toList)
        (mergeData [("k".toList, "case".toList)] [("k".toList, "step".toList)])
      = "step".toList := by
  refine ⟨?_, fun testData stepData key => lookupData_merge stepData testData key,
    by decide, by decide, by decide⟩
  intro pre key suf testData stepData hpre hne hw
  exact resolveValue_occurrence pre key suf (mergeData testData stepData) hpre hne hw

/-- C4 witness: `x=\x7b\x7buser\x7d\x7d!` with `user ↦ bob` resolves to
`x=bob!`, by the main theorem applied at this concrete input. -/
theorem C4_witness :
    resolveValue ("x=\x7b\x7buser\x7d\x7d!".toList)
        (mergeData [("user".toList, "bob".toList)] [])
      = "x=bob!".toList := by
  have h := C4_resolveValue_substitution.1 ("x=".toList) ("user".toList) ("!".toList)
      [("user".toList, "bob".toList)] [] (by decide) (by decide) (by decide)
  rw [show ("x=\x7b\x7buser\x7d\x7d!".toList)
        = ("x=".toList ++ lb :: lb :: ("user".toList ++ rb :: rb :: "!".toList)) from by decide]
  rw [h]
  decide

/-- C10 counterexample: the key `a\x7b\x7bb` contains characters outside
`[A-Za-z0-9_]` and is present in the data, yet
`\x7b\x7ba\x7b\x7bb\x7d\x7d` is not left verbatim: the scanner finds the
inner well-formed placeholder `\x7b\x7bb\x7d\x7d` and substitutes it,
producing `\x7b\x7baY`. -/
theorem C10_counterexample :
    (∃ c ∈ "a\x7b\x7bb".toList, isWordChar c = false)
    ∧ lookupData [("a\x7b\x7bb".toList, "X".toList), ("b".toList, "Y".toList)]
        ("a\x7b\x7bb".toList) = some ("X".toList)
    ∧ resolveValue (lb :: lb :: ("a\x7b\x7bb".toList ++ [rb, rb]))
        [("a\x7b\x7bb".toList, "X".toList), ("b".toList, "Y".toList)]
      = "\x7b\x7baY".toList
    ∧ lb :: lb :: ("a\x7b\x7bb".toList ++ [rb, rb]) ≠ "\x7b\x7baY".toList := by
  refine ⟨?_, ?_, ?_, ?_⟩ <;> decide

/-- C10 (amended): for every string containing an occurrence of
`\x7b\x7bk\x7d\x7d` — written `pre · \x7b\x7bk\x7d\x7d · suf` with a
left-brace-free `pre` and an arbitrary `suf` — where `k` contains a
character outside `[A-Za-z0-9_]` *and no brace character*, the occurrence
is left verbatim in the resolved string, whatever the data map (so in
particular even when `k` is present as a key in the merged data), because
the substitution pattern only matches `\w+` keys; the scan continues as
usual on the rest of the string. (If `k` itself contains braces, an inner
well-formed placeholder may still be substituted — see the
counterexample.) -/
theorem C10_resolveValue_nonword_keys (pre k suf : List Char)
    (data : List (List Char × List Char))
    (hpre : ∀ c ∈ pre, c ≠ lb)
    (hnw : ∃ c ∈ k, isWordChar c = false)
    (hbr : ∀ c ∈ k, c ≠ lb ∧ c ≠ rb) :
    resolveValue (pre ++ lb :: lb :: (k ++ rb :: rb :: suf)) data
      = pre ++ lb :: lb :: (k ++ rb :: rb :: resolveValue suf data) := by
  have hrest : (takeWordRun k).2 ≠ [] := takeWordRun_rest_ne_nil k hnw
  obtain ⟨d, t, hdt⟩ : ∃ d t, (takeWordRun k).2 = d :: t := by
    cases h : (takeWordRun k).2 with
    | nil => exact absurd h hrest
    | cons d t => exact ⟨d, t, rfl⟩
  have hdmem : d ∈ k := by
    have hmem : d ∈ (takeWordRun k).2 := by rw [hdt]; exact List.mem_cons_self _ _
    have h2 : d ∈ (takeWordRun k).1 ++ (takeWordRun k).2 := List.mem_append_right _ hmem
    rwa [takeWordRun_append_eq] at h2
  have hd_rb : d ≠ rb := (hbr d hdmem).2
  have htw : takeWordRun (k ++ rb :: rb :: suf)
      = ((takeWordRun k).1, d :: (t ++ rb :: rb :: suf)) := by
    rw [takeWordRun_append_rest k (rb :: rb :: suf) hrest, hdt]
    rfl
  have hm1 : matchPlaceholder (lb :: lb :: (k ++ rb :: rb :: suf)) = none := by
    apply matchPlaceholder_none_braces
    right
    rw [htw]
    simp [hd_rb]
  rw [resolveValue_no_lb_append data pre _ hpre]
  obtain ⟨k0, k', rfl⟩ : ∃ k0 k', k = k0 :: k' := by
    cases k with
    | nil => obtain ⟨c, hc, _⟩ := hnw; simp at hc
    | cons a b => exact ⟨a, b, rfl⟩
  have hk0 : k0 ≠ lb := (hbr k0 (List.mem_cons_self _ _)).1
  have hm2 : matchPlaceholder (lb :: ((k0 :: k') ++ rb :: rb :: suf)) = none := by
    rw [List.cons_append]
    exact matchPlaceholder_none_of_snd lb k0 _ hk0
  rw [resolveValue_nomatch _ _ data hm1]
  rw [resolveValue_nomatch _ _ data hm2]
  have hseg : ∀ c ∈ (k0 :: k') ++ [rb, rb], c ≠ lb := by
    intro c hc
    rcases List.mem_append.mp hc with hc' | hc'
    · exact (hbr c hc').1
    · have : c = rb := by
        rcases List.mem_cons.mp hc' with rfl | h'
        · rfl
        · simpa using h'
      subst this
      decide
  have hassoc : (k0 :: k') ++ rb :: rb :: suf = ((k0 :: k') ++ [rb, rb]) ++ suf := by
    simp
  rw [hassoc, resolveValue_no_lb_append data _ suf hseg]
  simp

/-- C10 witness: the amended theorem at a concrete embedded occurrence —
`hello \x7b\x7ba b\x7d\x7d world` with the non-word, brace-free key
`a b` present in the data is resolved to itself. -/
theorem C10_witness :
    resolveValue ("hello \x7b\x7ba b\x7d\x7d world".toList) [("a b".toList, "Z".toList)]
      = "hello \x7b\x7ba b\x7d\x7d world".toList := by
  have h := C10_resolveValue_nonword_keys ("hello ".toList) ("a b".toList)
      (" world".toList) [("a b".toList, "Z".toList)] (by decide) (by decide) (by decide)
  rw [show ("hello \x7b\x7ba b\x7d\x7d world".toList)
        = ("hello ".toList ++ lb :: lb :: ("a b".toList ++ rb :: rb :: " world".toList))
      from by decide]
  rw [h]
  decide

/-! ## JUnit export (generateJunitXml, escapeXml) -/

/-- One `str.replace(/c/g, repl)` pass for a single-character pattern. -/
def replaceAllChar (c : Char) (repl : List Char) : List Char → List Char
  | [] => []
  | d :: ds => (if d = c then repl else [d]) ++ replaceAllChar c repl ds

/-- `TestResultHandler.escapeXml(str)`: the five sequential global
replaces, ampersand first. -/
def escapeXml (s : List Char) : List Char :=
  replaceAllChar (Char.ofNat 39) ("&apos;".toList)
    (replaceAllChar (Char.ofNat 34) ("&quot;".toList)
      (replaceAllChar (Char.ofNat 62) ("&gt;".toList)
        (replaceAllChar (Char.ofNat 60) ("&lt;".toList)
          (replaceAllChar (Char.ofNat 38) ("&amp;".toList) s))))

/-- Three-digit zero-padded decimal (the fractional part of
`toFixed(3)`). -/
def pad3 (n : Nat) : List Char :=
  (if n < 10 then "00" else if n < 100 then "0" else "").toList ++ (toString n).toList

/-- `(ms / 1000).toFixed(3)` for a whole number of milliseconds (exact
decimal; the binary-float rounding of `toFixed` on extreme values is not
modelled — no claim concerns the `time` attribute). -/
def formatSeconds (ms : Nat) : List Char :=
  (toString (ms / 1000)).toList ++ Char.ofNat 46 :: pad3 (ms % 1000)

/-- One `<testcase>` element of `generateJunitXml`: the `name` attribute
is interpolated directly from `result.testCaseId`; the failure message
and body go through `escapeXml` (`result.error || 'Test failed'` and
`result.error || ''`). -/
def junitTestCase (r : TestResult) : List Char :=
  ("<testcase name=\"".toList) ++ r.testCaseId.toList
  ++ ("\" time=\"".toList) ++ formatSeconds r.duration ++ ("\">".toList)
  ++ (if r.status = CaseStatus.FAILED then
        ("<failure message=\"".toList) ++ escapeXml (jsOrElse r.error "Test failed").toList
        ++ ("\">".toList) ++ escapeXml (jsOrElse r.error "").toList ++ ("</failure>".toList)
      else if r.status = CaseStatus.SKIPPED then "<skipped/>".toList
      else [])
  ++ "</testcase>".toList

/-- `TestResultHandler.generateJunitXml(summary, results)`. -/
def generateJunitXml (summary : TestSummary) (results : List TestResult) : List Char :=
  ("<?xml version=\"1.0\" encoding=\"UTF-8\"?>\n<testsuite name=\"AI Testing Agent\" tests=\"".toList)
  ++ (toString summary.total).toList ++ ("\" failures=\"".toList)
  ++ (toString summary.failed).toList ++ ("\" skipped=\"".toList)
  ++ (toString summary.skipped).toList ++ ("\" time=\"".toList)
  ++ formatSeconds summary.duration ++ ("\">\n".toList)
  ++ List.intercalate ("\n".toList) (results.map junitTestCase)
  ++ ("\n</testsuite>".toList)

/-- `l` starts with `pat` (JavaScript `String.prototype.startsWith`). -/
def startsWithB : List Char → List Char → Bool
  | _, [] => true
  | [], _ :: _ => false
  | c :: cs, p :: ps => c = p && startsWithB cs ps

/-- `hay.includes(pat)` — `pat` occurs as a contiguous substring. -/
def hasSub : List Char → List Char → Bool
  | [], pat => startsWithB [] pat
  | c :: cs, pat => startsWithB (c :: cs) pat || hasSub cs pat

/-- Concrete failing result whose id and error message hold XML special
characters. -/
def junitCexResult : TestResult :=
  { testCaseId := "t<c", status := CaseStatus.FAILED, duration := 0,
    error := some "x&y", executedAt := 0 }

/-- C6 evidence (code bug): in the JUnit document for a failing result
with `testCaseId = t<c` and error `x&y`, the failure message is escaped
(`message=\"x&amp;y\"` appears) but the test name is interpolated raw —
`name=\"t<c\"` appears and the escaped `t&lt;c` does not, even though
`escapeXml` itself would produce it; the document is not well-formed XML,
contradicting "every occurrence of & < > \" ' in failure messages and in
test names is escaped". -/
theorem C6_junit_testcase_name_unescaped :
    hasSub (generateJunitXml (generateSummary [junitCexResult] 0 0
        ⟨"chromium", "unknown", "linux"⟩) [junitCexResult])
      ("name=\"t<c\"".toList) = true
    ∧ hasSub (generateJunitXml (generateSummary [junitCexResult] 0 0
        ⟨"chromium", "unknown", "linux"⟩) [junitCexResult])
      ("t&lt;c".toList) = false
    ∧ hasSub (generateJunitXml (generateSummary [junitCexResult] 0 0
        ⟨"chromium", "unknown", "linux"⟩) [junitCexResult])
      ("message=\"x&amp;y\"".toList) = true
    ∧ escapeXml ("t<c".toList) = "t&lt;c".toList := by
  refine ⟨?_, ?_, ?_, ?_⟩ <;> decide

/-! ## performAssertion (no-element branch of the assertion protocol) -/

/-- The page state an assertion can consult: `page.url()` and
`page.title()`. -/
structure PageState where
  url : List Char
  title : List Char
deriving DecidableEq, Repr

/-- The Playwright locator behaviour for the element branch: outcomes of
the three `waitFor` states and the `textContent()` value (which can be
null). -/
structure LocatorOracle where
  waitVisible : Except (List Char) Unit
  waitHidden : Except (List Char) Unit
  waitAttached : Except (List Char) Unit
  textContent : Option (List Char)
deriving Repr

/-- `String.prototype.trim` (ASCII whitespace; the full JS whitespace set
is irrelevant to the claims). -/
def trimStr (s : List Char) : List Char :=
  ((s.dropWhile Char.isWhitespace).reverse.dropWhile Char.isWhitespace).reverse

/-- `str.replace(pat, repl)` with a string pattern: replace the first
occurrence only. -/
def replaceFirst (pat repl : List Char) : List Char → List Char
  | [] => if startsWithB [] pat then repl else []
  | c :: cs =>
    if startsWithB (c :: cs) pat then repl ++ (c :: cs).drop pat.length
    else c :: replaceFirst pat repl cs

/-- `PlaywrightExecutor.performAssertion(step, testData)`: resolve the
expected value, then run the element-based assertion when a selector is
present (visible/hidden wait, else attached-wait plus trimmed
text-content comparison), otherwise the `url:`/`title:` substring checks
— and silently do nothing when neither prefix matches. -/
def performAssertion (element : Option LocatorOracle) (expected : List Char)
    (data : List (List Char × List Char)) (page : PageState) :
    Except (List Char) Unit :=
  let expectedValue := resolveValue expected data
  match element with
  | some loc =>
    if expectedValue = "visible".toList then loc.waitVisible
    else if expectedValue = "hidden".toList then loc.waitHidden
    else
      match loc.waitAttached with
      | Except.error e => Except.error e
      | Except.ok _ =>
        let same : Bool := match loc.textContent with
          | some t => trimStr t == expectedValue
          | none => false
        if same then Except.ok ()
        else
          Except.error (("Expected \"".toList) ++ expectedValue
            ++ ("\" but got \"".toList)
            ++ (match loc.textContent with
                | some t => t
                | none => "null".toList) ++ ("\"".toList))
  | none =>
    if startsWithB expectedValue ("url:".toList) then
      let expectedUrl := replaceFirst ("url:".toList) [] expectedValue
      if hasSub page.url expectedUrl then Except.ok ()
      else
        Except.error (("Expected URL to contain \"".toList) ++ expectedUrl
          ++ ("\" but got \"".toList) ++ page.url ++ ("\"".toList))
    else if startsWithB expectedValue ("title:".toList) then
      let expectedTitle := replaceFirst ("title:".toList) [] expectedValue
      if hasSub page.title expectedTitle then Except.ok ()
      else
        Except.error (("Expected title to contain \"".toList) ++ expectedTitle
          ++ ("\" but got \"".toList) ++ page.title ++ ("\"".toList))
    else Except.ok ()

/-- Helper: when the pattern is a prefix, replacing its first occurrence
by the empty string is dropping the prefix. -/
theorem replaceFirst_startsWith (pat l : List Char) (h : startsWithB l pat = true) :
    replaceFirst pat [] l = l.drop pat.length := by
  cases l with
  | nil =>
    cases pat with
    | nil => rfl
    | cons p ps => simp [startsWithB] at h
  | cons c cs => simp [replaceFirst, h]

/-- Helper: a cons-level inversion of `startsWithB`. -/
theorem startsWithB_cons_true {c : Char} {cs : List Char} {p : Char} {ps : List Char}
    (h : startsWithB (c :: cs) (p :: ps) = true) :
    c = p ∧ startsWithB cs ps = true := by
  simpa [startsWithB, Bool.and_eq_true, decide_eq_true_eq] using h

/-- Helper: a string cannot start with both `title:` and `url:`. -/
theorem startsWith_title_not_url (l : List Char)
    (h : startsWithB l ("title:".toList) = true) :
    startsWithB l ("url:".toList) = false := by
  rw [show ("title:".toList) = Char.ofNat 116 :: "itle:".toList from by decide] at h
  cases l with
  | nil => simp [startsWithB] at h
  | cons c cs =>
    obtain ⟨rfl, -⟩ := startsWithB_cons_true h
    rw [show ("url:".toList) = Char.ofNat 117 :: "rl:".toList from by decide]
    simp [startsWithB]

/-- C8: with no element selector, an assert step whose resolved expected
value starts with neither `url:` nor `title:` completes without raising,
whatever the page state (a silent no-op); with the `url:` (resp.
`title:`) prefix it succeeds exactly when the current URL (resp. title)
contains the remainder of the resolved value — the part after the 4
(resp. 6) prefix characters — as a substring, raising otherwise. -/
theorem C8_performAssertion_no_element (expected : List Char)
    (data : List (List Char × List Char)) (page : PageState) :
    (startsWithB (resolveValue expected data) ("url:".toList) = false →
      startsWithB (resolveValue expected data) ("title:".toList) = false →
      performAssertion none expected data page = Except.ok ())
    ∧ (startsWithB (resolveValue expected data) ("url:".toList) = true →
        (performAssertion none expected data page = Except.ok ()
          ↔ hasSub page.url ((resolveValue expected data).drop 4) = true))
    ∧ (startsWithB (resolveValue expected data) ("title:".toList) = true →
        (performAssertion none expected data page = Except.ok ()
          ↔ hasSub page.title ((resolveValue expected data).drop 6) = true)) := by
  have hu : ("url:".toList) = [Char.ofNat 117, Char.ofNat 114, Char.ofNat 108, Char.ofNat 58] := by
    decide
  have ht : ("title:".toList)
      = [Char.ofNat 116, Char.ofNat 105, Char.ofNat 116, Char.ofNat 108, Char.ofNat 101, Char.ofNat 58] := by
    decide
  refine ⟨?_, ?_, ?_⟩
  · intro h1 h2
    rw [hu] at h1
    rw [ht] at h2
    simp [performAssertion, hu, ht, h1, h2]
  · intro h1
    have hrf := replaceFirst_startsWith ("url:".toList) (resolveValue expected data) h1
    rw [show ("url:".toList).length = 4 from by decide] at hrf
    rw [hu] at h1 hrf
    cases hc : hasSub page.url ((resolveValue expected data).drop 4) with
    | true => simp [performAssertion, hu, h1, hrf, hc]
    | false => simp [performAssertion, hu, h1, hrf, hc]
  · intro h1
    have h2 : startsWithB (resolveValue expected data) ("url:".toList) = false :=
      startsWith_title_not_url _ h1
    have hrf := replaceFirst_startsWith ("title:".toList) (resolveValue expected data) h1
    rw [show ("title:".toList).length = 6 from by decide] at hrf
    rw [ht] at h1 hrf
    rw [hu] at h2
    cases hc : hasSub page.title ((resolveValue expected data).drop 6) with
    | true => simp [performAssertion, hu, ht, h1, h2, hrf, hc]
    | false => simp [performAssertion, hu, ht, h1, h2, hrf, hc]

/-- C8 witness: the theorem at concrete inputs — a `title:` assertion
passing on a containing title, and the no-prefix/no-element silent
no-op. -/
theorem C8_witness :
    performAssertion none ("title:Home".toList) []
        ⟨"http://x".toList, "My Home Page".toList⟩ = Except.ok ()
    ∧ performAssertion none ("anything".toList) []
        ⟨"http://x".toList, "My Home Page".toList⟩ = Except.ok () := by
  constructor
  · exact ((C8_performAssertion_no_element ("title:Home".toList) []
      ⟨"http://x".toList, "My Home Page".toList⟩).2.2 (by decide)).mpr (by decide)
  · exact (C8_performAssertion_no_element ("anything".toList) []
      ⟨"http://x".toList, "My Home Page".toList⟩).1 (by decide) (by decide)

/-- Helper: the `reduce` over durations equals the sum of the mapped
`duration` fields. -/
theorem foldl_duration_eq_sum (l : List TestResult) (n : Nat) :
    l.foldl (fun sum r => sum + r.duration) n = n + (l.map TestResult.duration).sum := by
  induction l generalizing n with
  | nil => simp
  | cons r t ih => simp [List.foldl_cons, ih, Nat.add_assoc]

/-- Concrete result used as counterexample input: `executedAt = 0`. -/
def cexResult : TestResult :=
  { testCaseId := "tc-1", status := CaseStatus.PASSED, duration := 5, executedAt := 0 }

/-- C3 counterexample: `processResult` does not leave `executedAt` unchanged.
Processing at time 1 a result whose `executedAt` is 0 returns an enriched
copy with `executedAt = 1` (the `{ ...result, executedAt: new Date() }`
spread overwrites the field), refuting "every field of r, including
executedAt, appears unchanged". -/
theorem C3_counterexample :
    ((processResult ⟨[], 0⟩ cexResult 1 cexBrowserInfo).2.2).executedAt = 1
    ∧ cexResult.executedAt = 0
    ∧ ((processResult ⟨[], 0⟩ cexResult 1 cexBrowserInfo).2.2).executedAt
        ≠ cexResult.executedAt := by
  refine ⟨rfl, rfl, ?_⟩
  decide

/-- C3 (amended): for every `TestResult` passed to `processResult`, every
field of the input except `executedAt` appears unchanged in the returned
enriched copy; `executedAt` is rewritten to the processing timestamp, and
the enrichment adds the browser-info metadata (and changes nothing else). -/
theorem C3_processResult_frame (st : HandlerState) (r : TestResult) (now : Nat)
    (b : BrowserInfo) :
    ((processResult st r now b).2.2).testCaseId = r.testCaseId
    ∧ ((processResult st r now b).2.2).status = r.status
    ∧ ((processResult st r now b).2.2).duration = r.duration
    ∧ ((processResult st r now b).2.2).error = r.error
    ∧ ((processResult st r now b).2.2).stepResults = r.stepResults
    ∧ ((processResult st r now b).2.2).artifacts = r.artifacts
    ∧ ((processResult st r now b).2.2).executedAt = now
    ∧ ((processResult st r now b).2.2).browserInfo = some b :=
  ⟨rfl, rfl, rfl, rfl, rfl, rfl, rfl, rfl⟩

/-- C9: `generateSummary` is idempotent on its counts and duration: two
calls on the same unchanged result set (at possibly different call times
`t1`, `t2`) yield identical total/passed/failed/skipped/flaky counts and
identical total duration — the sum of the results' `duration` fields —
and only the `endTime` stamp tracks the call time. -/
theorem C9_generateSummary_idempotent (results : List TestResult)
    (startTime t1 t2 : Nat) (env : EnvironmentInfo) :
    (generateSummary results startTime t1 env).total
        = (generateSummary results startTime t2 env).total
    ∧ (generateSummary results startTime t1 env).passed
        = (generateSummary results startTime t2 env).passed
    ∧ (generateSummary results startTime t1 env).failed
        = (generateSummary results startTime t2 env).failed
    ∧ (generateSummary results startTime t1 env).skipped
        = (generateSummary results startTime t2 env).skipped
    ∧ (generateSummary results startTime t1 env).flaky
        = (generateSummary results startTime t2 env).flaky
    ∧ (generateSummary results startTime t1 env).duration
        = (generateSummary results startTime t2 env).duration
    ∧ (generateSummary results startTime t1 env).duration
        = (results.map TestResult.duration).sum
    ∧ (generateSummary results startTime t1 env).endTime = t1 := by
  refine ⟨rfl, rfl, rfl, rfl, rfl, rfl, ?_, rfl⟩
  simpa using foldl_duration_eq_sum results 0

end AiTestingAgent
